import Mathlib

/-!
Verification of the orderdesk-mcp server core against its specification.

The definitions below are a shallow embedding of the Python source:
  * `mergeOrderChanges`   — `OrderDeskClient.merge_order_changes` (orderdesk_client.py)
  * `requestWithRetry`    — `OrderDeskClient._request_with_retry` / `_handle_error_response`
  * `updateOrderWithRetry`— `OrderDeskClient.update_order_with_retry`
  * `backoffDelay`        — the conflict backoff `0.5 * (2**attempt)`
  * `TokenBucket.consume` — `TokenBucket.consume` (rate_limit.py)
  * `newTenantBucket` / `newIpBucket` — bucket creation in `RateLimiter`
  * `getStore` / `getStoreByName` / `resolveStore` / `listStores` / `deleteStore`
                          — `StoreService` (store.py)
  * `derive_tenant_key` / `encrypt_api_key` / `decrypt_api_key` / `registerStoreKey`
                          — `CryptoManager` (crypto.py) and `StoreService.register_store`
Python dicts are modeled as association lists with distinct keys, Python
floats as rationals, and HKDF/AES-GCM symbolically (deterministic, injective).
-/

/-! ### JSON-like values and Python dicts -/

/-- A JSON-like value as handled by the order-merge code.  Only the `null`
test matters to `merge_order_changes`; other payloads are represented by
`num` and `str` constructors. -/
inductive JVal where
  | null : JVal
  | num : Int → JVal
  | str : String → JVal
  deriving DecidableEq, Repr

/-- A Python dict with string keys: an association list whose keys are
pairwise distinct (`nodupKeys`). -/
abbrev Dict := List (String × JVal)

/-- Lookup of a key in a dict (first binding wins; keys of a Python dict
are unique). -/
def lookupKey (k : String) : Dict → Option JVal
  | [] => none
  | (k', v) :: rest => if k' = k then some v else lookupKey k rest

/-- Python `d[k] = v`: replace the binding in place if the key exists,
otherwise append the new binding (insertion order semantics). -/
def setKey (k : String) (v : JVal) : Dict → Dict
  | [] => [(k, v)]
  | (k', v') :: rest =>
      if k' = k then (k, v) :: rest else (k', v') :: setKey k v rest

/-- Python `d.pop(k, None)`: remove the binding of `k` if present. -/
def popKey (k : String) : Dict → Dict
  | [] => []
  | (k', v') :: rest => if k' = k then rest else (k', v') :: popKey k rest

/-- The keys of a dict are pairwise distinct (always true of a Python dict). -/
def nodupKeys (d : Dict) : Prop := (d.map Prod.fst).Nodup

instance (d : Dict) : Decidable (nodupKeys d) := by
  unfold nodupKeys; infer_instance

/-- One iteration of the loop body of `merge_order_changes`:
`if value is None: merged.pop(key, None) else: merged[key] = value`. -/
def mergeStep (m : Dict) (kv : String × JVal) : Dict :=
  if kv.2 = JVal.null then popKey kv.1 m else setKey kv.1 kv.2 m

/-- `OrderDeskClient.merge_order_changes`: start from a copy of `original`
and fold the loop body over the items of `changes`. -/
def mergeOrderChanges (original changes : Dict) : Dict :=
  changes.foldl mergeStep original

/-! ### Lookup lemmas about `setKey` and `popKey` -/

theorem lookupKey_setKey_self (k : String) (v : JVal) (d : Dict) :
    lookupKey k (setKey k v d) = some v := by
  induction d with
  | nil => simp [setKey, lookupKey]
  | cons hd tl ih =>
      obtain ⟨k', v'⟩ := hd
      by_cases h : k' = k
      · subst h; simp [setKey, lookupKey]
      · simp [setKey, h, lookupKey, ih]

theorem lookupKey_setKey_ne (k k' : String) (v : JVal) (d : Dict)
    (h : k ≠ k') : lookupKey k' (setKey k v d) = lookupKey k' d := by
  induction d with
  | nil => simp [setKey, lookupKey, h]
  | cons hd tl ih =>
      obtain ⟨k0, v0⟩ := hd
      by_cases h0 : k0 = k
      · subst h0
        simp [setKey, lookupKey, h]
      · by_cases h1 : k0 = k'
        · subst h1
          simp [setKey, lookupKey, h0]
        · simp [setKey, h0, lookupKey, h1, ih]

theorem popKey_sublist (k : String) (d : Dict) : (popKey k d).Sublist d := by
  induction d with
  | nil => simp [popKey]
  | cons hd tl ih =>
      obtain ⟨k0, v0⟩ := hd
      by_cases h0 : k0 = k
      · simp [popKey, h0]
      · simpa [popKey, h0] using List.Sublist.cons₂ (k0, v0) ih

theorem lookupKey_popKey_ne (k k' : String) (d : Dict)
    (h : k ≠ k') : lookupKey k' (popKey k d) = lookupKey k' d := by
  induction d with
  | nil => simp [popKey]
  | cons hd tl ih =>
      obtain ⟨k0, v0⟩ := hd
      by_cases h0 : k0 = k
      · subst h0
        simp [popKey, lookupKey, h]
      · by_cases h1 : k0 = k'
        · subst h1
          simp [popKey, lookupKey, h0]
        · simp [popKey, h0, lookupKey, h1, ih]

theorem lookupKey_eq_none_iff (k : String) (d : Dict) :
    lookupKey k d = none ↔ k ∉ d.map Prod.fst := by
  induction d with
  | nil => simp [lookupKey]
  | cons hd tl ih =>
      obtain ⟨k0, v0⟩ := hd
      by_cases h0 : k0 = k
      · subst h0; simp [lookupKey]
      · have hhead : lookupKey k ((k0, v0) :: tl) = lookupKey k tl := by
          simp [lookupKey, h0]
        rw [hhead, ih]
        simp only [List.map_cons, List.mem_cons]
        constructor
        · intro hk hc
          rcases hc with hc | hc
          · exact h0 hc.symm
          · exact hk hc
        · intro hk hc
          exact hk (Or.inr hc)

theorem lookupKey_popKey_self (k : String) :
    ∀ d : Dict, nodupKeys d → lookupKey k (popKey k d) = none := by
  intro d
  induction d with
  | nil => intro _; simp [popKey, lookupKey]
  | cons hd tl ih =>
      obtain ⟨k0, v0⟩ := hd
      intro h
      unfold nodupKeys at h
      simp only [List.map_cons, List.nodup_cons] at h
      by_cases h0 : k0 = k
      · subst h0
        simp only [popKey, if_pos rfl]
        exact (lookupKey_eq_none_iff k0 tl).mpr h.1
      · have htl : nodupKeys tl := h.2
        simp [popKey, h0, lookupKey, ih htl]

theorem mem_keys_setKey (a k : String) (v : JVal) :
    ∀ d : Dict, a ∈ (setKey k v d).map Prod.fst →
      a = k ∨ a ∈ d.map Prod.fst := by
  intro d
  induction d with
  | nil =>
      intro h
      simp [setKey] at h
      exact Or.inl h
  | cons hd tl ih =>
      obtain ⟨k0, v0⟩ := hd
      intro hmem
      by_cases h0 : k0 = k
      · rw [show setKey k v ((k0, v0) :: tl) = (k, v) :: tl from by
          simp [setKey, h0]] at hmem
        simp only [List.map_cons, List.mem_cons] at hmem ⊢
        tauto
      · rw [show setKey k v ((k0, v0) :: tl) = (k0, v0) :: setKey k v tl from by
          simp [setKey, h0]] at hmem
        simp only [List.map_cons, List.mem_cons] at hmem ⊢
        rcases hmem with hmem | hmem
        · tauto
        · rcases ih hmem with hb | hb <;> tauto

theorem nodupKeys_setKey (k : String) (v : JVal) :
    ∀ d : Dict, nodupKeys d → nodupKeys (setKey k v d) := by
  intro d
  induction d with
  | nil => intro _; simp [setKey, nodupKeys]
  | cons hd tl ih =>
      obtain ⟨k0, v0⟩ := hd
      intro h
      unfold nodupKeys at h ⊢
      simp only [List.map_cons, List.nodup_cons] at h
      by_cases h0 : k0 = k
      · subst h0
        rw [show setKey k0 v ((k0, v0) :: tl) = (k0, v) :: tl from by
          simp [setKey]]
        simp only [List.map_cons, List.nodup_cons]
        exact h
      · have htl : nodupKeys (setKey k v tl) := ih h.2
        unfold nodupKeys at htl
        rw [show setKey k v ((k0, v0) :: tl) = (k0, v0) :: setKey k v tl from by
          simp [setKey, h0]]
        simp only [List.map_cons, List.nodup_cons]
        refine ⟨fun hc => ?_, htl⟩
        rcases mem_keys_setKey k0 k v tl hc with hb | hb
        · exact h0 hb
        · exact h.1 hb

theorem nodupKeys_popKey (k : String) (d : Dict) (h : nodupKeys d) :
    nodupKeys (popKey k d) := by
  unfold nodupKeys at h ⊢
  exact ((popKey_sublist k d).map Prod.fst).nodup h

theorem nodupKeys_mergeStep (m : Dict) (kv : String × JVal)
    (h : nodupKeys m) : nodupKeys (mergeStep m kv) := by
  unfold mergeStep
  by_cases h0 : kv.2 = JVal.null
  · simpa [h0] using nodupKeys_popKey kv.1 m h
  · simpa [h0] using nodupKeys_setKey kv.1 kv.2 m h

/-- Characterization of `merge_order_changes` by lookup: a `null` change
deletes the key, a non-null change overwrites it, an absent key keeps the
original value. -/
theorem lookupKey_mergeOrderChanges :
    ∀ (changes : Dict), nodupKeys changes →
    ∀ (original : Dict), nodupKeys original → ∀ (k : String),
    lookupKey k (mergeOrderChanges original changes) =
      match lookupKey k changes with
      | none => lookupKey k original
      | some v => if v = JVal.null then none else some v := by
  intro changes
  induction changes with
  | nil => intro _ original _ k; rfl
  | cons hd tl ih =>
      obtain ⟨k0, v0⟩ := hd
      intro h2 original h1 k
      have h2' : k0 ∉ tl.map Prod.fst ∧ nodupKeys tl := by
        unfold nodupKeys at h2
        simpa using h2
      have hstep : mergeOrderChanges original ((k0, v0) :: tl) =
          mergeOrderChanges (mergeStep original (k0, v0)) tl := rfl
      rw [hstep, ih h2'.2 (mergeStep original (k0, v0))
        (nodupKeys_mergeStep original (k0, v0) h1) k]
      by_cases hk : k0 = k
      · subst hk
        have htl : lookupKey k0 tl = none :=
          (lookupKey_eq_none_iff k0 tl).mpr h2'.1
        have hhead : lookupKey k0 ((k0, v0) :: tl) = some v0 := by
          simp [lookupKey]
        rw [htl, hhead]
        show lookupKey k0 (mergeStep original (k0, v0)) =
          if v0 = JVal.null then none else some v0
        by_cases hv : v0 = JVal.null
        · rw [if_pos hv]
          unfold mergeStep
          rw [if_pos hv]
          exact lookupKey_popKey_self k0 original h1
        · rw [if_neg hv]
          unfold mergeStep
          rw [if_neg hv]
          exact lookupKey_setKey_self k0 v0 original
      · have hhead : lookupKey k ((k0, v0) :: tl) = lookupKey k tl := by
          simp [lookupKey, hk]
        rw [hhead]
        rcases htl : lookupKey k tl with _ | v
        · show lookupKey k (mergeStep original (k0, v0)) = lookupKey k original
          unfold mergeStep
          by_cases hv : v0 = JVal.null
          · rw [if_pos hv]
            exact lookupKey_popKey_ne k0 k original hk
          · rw [if_neg hv]
            exact lookupKey_setKey_ne k0 k v0 original hk
        · rfl

/-! ### A small heap of dict objects, to state that `merge_order_changes`
does not mutate its `original` argument.  Addresses are naturals; the
Python line `merged = original.copy()` allocates the fresh address `next`
with a copy of the dict at `orig`, and all later `pop`/`[]=` statements
target that fresh address only. -/

def Heap : Type := Nat → Dict

/-- Write the dict `d` at address `a` of the heap. -/
def heapUpdate (h : Heap) (a : Nat) (d : Dict) : Heap :=
  fun a' => if a' = a then d else h a'

/-- One loop iteration of `merge_order_changes` acting on the heap: it
mutates only the dict stored at `addr` (the `merged` object). -/
def progStep (addr : Nat) (h : Heap) (kv : String × JVal) : Heap :=
  heapUpdate h addr (mergeStep (h addr) kv)

/-- `merge_order_changes` as a heap program: copy the dict at `orig` into
the fresh address `next`, run the loop there, return the final heap and
the address of the merged result. -/
def mergeOrderChangesProg (h : Heap) (next orig : Nat) (changes : Dict) :
    Heap × Nat :=
  (changes.foldl (progStep next) (heapUpdate h next (h orig)), next)

theorem heapUpdate_ne (h : Heap) (a a' : Nat) (d : Dict) (hne : a' ≠ a) :
    heapUpdate h a d a' = h a' := by
  simp [heapUpdate, hne]

theorem heapUpdate_self (h : Heap) (a : Nat) (d : Dict) :
    heapUpdate h a d a = d := by
  simp [heapUpdate]

theorem foldl_progStep_spec (addr : Nat) :
    ∀ (changes : Dict) (h : Heap),
      (changes.foldl (progStep addr) h) addr =
        changes.foldl mergeStep (h addr) ∧
      ∀ a, a ≠ addr → (changes.foldl (progStep addr) h) a = h a := by
  intro changes
  induction changes with
  | nil => intro h; exact ⟨rfl, fun _ _ => rfl⟩
  | cons hd tl ih =>
      intro h
      have hstep : (hd :: tl).foldl (progStep addr) h =
          tl.foldl (progStep addr) (progStep addr h hd) := rfl
      rw [hstep]
      rcases ih (progStep addr h hd) with ⟨h1, h2⟩
      refine ⟨?_, ?_⟩
      · rw [h1]
        show (tl.foldl mergeStep (heapUpdate h addr (mergeStep (h addr) hd) addr)) =
          (hd :: tl).foldl mergeStep (h addr)
        rw [heapUpdate_self]
        rfl
      · intro a ha
        rw [h2 a ha]
        exact heapUpdate_ne h addr a _ ha

/-! ### HTTP request retry logic (`_request_with_retry` and
`_handle_error_response`) -/

/-- Outcome of one HTTP attempt against the upstream API, as observed by
`_request_with_retry`: a parsed success body (status < 400), an HTTP error
response (status ≥ 400), an `httpx.TimeoutException`, or an
`httpx.NetworkError`. -/
inductive HttpOutcome where
  | success (data : Dict)
  | httpError (status : Nat)
  | timeout
  | netFailure
  deriving DecidableEq, Repr

/-- The statuses for which `_handle_error_response` logs a retry and backs
off: `retry_statuses = [429, 500, 502, 503, 504]`. -/
def retryStatuses : List Nat := [429, 500, 502, 503, 504]

/-- `error_code_map` of `_handle_error_response`, with default
`"API_ERROR"` for unmapped statuses. -/
def errorCodeMap (status : Nat) : String :=
  if status = 400 then "BAD_REQUEST"
  else if status = 401 then "UNAUTHORIZED"
  else if status = 403 then "FORBIDDEN"
  else if status = 404 then "NOT_FOUND"
  else if status = 429 then "RATE_LIMITED"
  else if status = 500 then "INTERNAL_ERROR"
  else if status = 502 then "BAD_GATEWAY"
  else if status = 503 then "SERVICE_UNAVAILABLE"
  else if status = 504 then "GATEWAY_TIMEOUT"
  else "API_ERROR"

/-- Result of `_request_with_retry`: parsed JSON on success, or the code
of the raised `OrderDeskError`. -/
inductive ReqResult where
  | ok (data : Dict)
  | err (code : String)
  deriving DecidableEq, Repr

/-- `_request_with_retry`, with the environment `env` giving the outcome of
the HTTP attempt numbered `attempt`.  `remaining` is `max_retries - attempt`
(the method is entered with `attempt = 0`), so `attempt < max_retries`
is `remaining ≠ 0`.  The second component counts HTTP requests issued.
An `httpError` outcome runs `_handle_error_response`, which backs off for
`retryStatuses` but then always raises `OrderDeskError(errorCodeMap status)`;
the caller's `except OrderDeskError: raise` re-raises it without retrying,
so no recursion happens on that branch.  Timeouts and network errors
recurse while attempts remain (`attempt < self.max_retries`). -/
def requestWithRetryAux (env : Nat → HttpOutcome) :
    Nat → Nat → ReqResult × Nat
  | attempt, remaining =>
    match env attempt with
    | .success d => (.ok d, 1)
    | .httpError s => (.err (errorCodeMap s), 1)
    | .timeout =>
        match remaining with
        | 0 => (.err "TIMEOUT", 1)
        | Nat.succ r =>
            let res := requestWithRetryAux env (attempt + 1) r
            (res.1, res.2 + 1)
    | .netFailure =>
        match remaining with
        | 0 => (.err "NETWORK_ERROR", 1)
        | Nat.succ r =>
            let res := requestWithRetryAux env (attempt + 1) r
            (res.1, res.2 + 1)

/-- `_request_with_retry(method, path)` as called publicly: attempt 0, with
`max_retries` retries remaining. -/
def requestWithRetry (env : Nat → HttpOutcome) (maxRetries : Nat) :
    ReqResult × Nat :=
  requestWithRetryAux env 0 maxRetries

/-! ### The mutation retry loop (`update_order_with_retry`) -/

/-- Result of `update_order_with_retry`: the updated order, a re-raised
`OrderDeskError` code, or a `ConflictError` raised after the loop with
`retries = max_retries`. -/
inductive MutResult where
  | ok (d : Dict)
  | err (code : String)
  | conflictExhausted (retriesAttempted : Nat)
  deriving DecidableEq, Repr

/-- `ConflictError.details["retries_attempted"]`: the constructor stores
`{"retries_attempted": retries} if retries else {}`. -/
def conflictDetails (retries : Nat) : Option Nat :=
  if retries = 0 then none else some retries

/-- The default `max_retries` of `update_order_with_retry`. -/
def defaultMaxRetries : Nat := 5

/-- The body of `for attempt in range(max_retries)` in
`update_order_with_retry`.  `remaining = max_retries - attempt` (so the
guard `attempt < max_retries - 1` is `remaining ≥ 2`, i.e. `r ≠ 0`).
`fetchEnv n` is the outcome of the fetch of cycle `n` (`fetch_full_order`),
`uploadEnv n merged` the outcome of the upload (`update_order`); an
`Except.error c` is an `OrderDeskError` with code `c`.  A conflict code
with attempts remaining backs off and continues; a conflict on the last
attempt breaks, and the loop then raises `ConflictError(retries =
max_retries)`; any other code is re-raised immediately.  The two counters
are the number of fetches and uploads performed. -/
def updateLoopAux (fetchEnv : Nat → Except String Dict)
    (uploadEnv : Nat → Dict → Except String Dict) (changes : Dict)
    (maxRetries : Nat) : Nat → Nat → MutResult × Nat × Nat
  | _, 0 => (.conflictExhausted maxRetries, 0, 0)
  | attempt, Nat.succ r =>
    match fetchEnv attempt with
    | .error c =>
        if c = "CONFLICT_ERROR" then
          if r ≠ 0 then
            let res := updateLoopAux fetchEnv uploadEnv changes maxRetries
              (attempt + 1) r
            (res.1, res.2.1 + 1, res.2.2)
          else (.conflictExhausted maxRetries, 1, 0)
        else (.err c, 1, 0)
    | .ok current =>
        match uploadEnv attempt (mergeOrderChanges current changes) with
        | .ok updated => (.ok updated, 1, 1)
        | .error c =>
            if c = "CONFLICT_ERROR" then
              if r ≠ 0 then
                let res := updateLoopAux fetchEnv uploadEnv changes maxRetries
                  (attempt + 1) r
                (res.1, res.2.1 + 1, res.2.2 + 1)
              else (.conflictExhausted maxRetries, 1, 1)
            else (.err c, 1, 1)

/-- `update_order_with_retry(order_id, changes, max_retries)`: run the loop
from attempt 0. -/
def updateOrderWithRetry (fetchEnv : Nat → Except String Dict)
    (uploadEnv : Nat → Dict → Except String Dict) (changes : Dict)
    (maxRetries : Nat) : MutResult × Nat × Nat :=
  updateLoopAux fetchEnv uploadEnv changes maxRetries 0 maxRetries

/-- The delay `update_order_with_retry` passes to `_backoff_fixed` before
the retry following a conflicted attempt: `backoff_delay = 0.5 * (2 **
attempt)` seconds.  `_backoff_fixed` sleeps exactly this long, with no
jitter. -/
def backoffDelay (attempt : Nat) : ℚ := (1 / 2) * 2 ^ attempt

/-! ### Token bucket rate limiter (rate_limit.py).  Python floats are
modeled as rationals; `time.time()` values are explicit `now` arguments. -/

/-- `TokenBucket` dataclass: capacity (burst allowance), refill rate in
tokens per second, current tokens, last refill timestamp. -/
structure TokenBucket where
  capacity : ℚ
  rate : ℚ
  tokens : ℚ
  lastRefill : ℚ
  deriving DecidableEq, Repr

/-- `TokenBucket.consume(tokens)` at wall-clock time `now`: refill by
elapsed time capped at capacity, stamp `last_refill = now`, then deduct
`cost` if at least `cost` tokens are available. -/
def TokenBucket.consume (b : TokenBucket) (cost : ℚ) (now : ℚ) :
    Bool × TokenBucket :=
  let elapsed := now - b.lastRefill
  let refilled := min b.capacity (b.tokens + elapsed * b.rate)
  if cost ≤ refilled then
    (true, { b with tokens := refilled - cost, lastRefill := now })
  else
    (false, { b with tokens := refilled, lastRefill := now })

/-- Operation class of a tenant API call (`Literal["read", "write"]`). -/
inductive OpType where
  | read
  | write
  deriving DecidableEq, Repr

/-- `tokens_needed = 2 if operation_type == "write" else 1`. -/
def tokensNeeded : OpType → ℚ
  | .write => 2
  | .read => 1

/-- `RateLimiter.check_tenant_limit`: consume the operation's cost from the
tenant's bucket. -/
def checkTenantLimit (b : TokenBucket) (op : OpType) (now : ℚ) :
    Bool × TokenBucket :=
  b.consume (tokensNeeded op) now

/-- `RateLimiter._get_tenant_bucket` on a miss: a bucket with
`capacity = tenant_rpm * 2`, `rate = tenant_rpm / 60`, starting full. -/
def newTenantBucket (rpm : Nat) (now : ℚ) : TokenBucket :=
  { capacity := (rpm : ℚ) * 2
    rate := (rpm : ℚ) / 60
    tokens := (rpm : ℚ) * 2
    lastRefill := now }

/-- `RateLimiter._get_ip_bucket` on a miss (login/signup/console families):
a bucket with `capacity = rpm`, `rate = rpm / 60`, starting full. -/
def newIpBucket (rpm : Nat) (now : ℚ) : TokenBucket :=
  { capacity := (rpm : ℚ)
    rate := (rpm : ℚ) / 60
    tokens := (rpm : ℚ)
    lastRefill := now }

/-- Default `rate_limit_rpm` (config.py). -/
def rateLimitRpm : Nat := 120

/-- Default `webui_rate_limit_login` (config.py). -/
def webuiRateLimitLogin : Nat := 5

/-- Default `webui_rate_limit_signup` (config.py). -/
def webuiRateLimitSignup : Nat := 2

/-- Default `webui_rate_limit_api_console` (config.py). -/
def webuiRateLimitApiConsole : Nat := 30

/-- The state of a tenant bucket with base rate 60 rpm (capacity 120,
refill 1 token/sec) after `k` read-cost checks issued at time 0. -/
def afterReads : Nat → TokenBucket
  | 0 => newTenantBucket 60 0
  | k + 1 => (checkTenantLimit (afterReads k) .read 0).2

/-! ### Store service (store.py).  Rows of the `stores` table restricted to
the columns the lookups read; the SQLAlchemy query filters become list
searches over the table. -/

/-- A row of the `stores` table. -/
structure StoreRec where
  tenantId : String
  storeId : String
  storeName : String
  createdAt : Nat
  deriving DecidableEq, Repr

/-- `StoreService.get_store`: first row with matching `tenant_id` and
`store_id`. -/
def getStore (db : List StoreRec) (tenantId storeId : String) :
    Option StoreRec :=
  db.find? (fun s => decide (s.tenantId = tenantId ∧ s.storeId = storeId))

/-- SQL `lower()` as applied by `func.lower`: lowercase every character. -/
def lowerStr (s : String) : String := ⟨s.data.map Char.toLower⟩

/-- `StoreService.get_store_by_name`: first row with matching `tenant_id`
and case-insensitive `store_name` (`func.lower` on both sides). -/
def getStoreByName (db : List StoreRec) (tenantId storeName : String) :
    Option StoreRec :=
  db.find? (fun s => decide (s.tenantId = tenantId ∧
    lowerStr s.storeName = lowerStr storeName))

/-- `StoreService.resolve_store`: try `store_id` first, then fall back to
the friendly name. -/
def resolveStore (db : List StoreRec) (tenantId identifier : String) :
    Option StoreRec :=
  match getStore db tenantId identifier with
  | some s => some s
  | none => getStoreByName db tenantId identifier

/-- Insert a row into a list sorted by `created_at` descending. -/
def insertByCreatedDesc (s : StoreRec) : List StoreRec → List StoreRec
  | [] => [s]
  | t :: rest =>
      if t.createdAt ≤ s.createdAt then s :: t :: rest
      else t :: insertByCreatedDesc s rest

/-- Sort rows by `created_at` descending (the `order_by` of
`list_stores`). -/
def sortByCreatedDesc : List StoreRec → List StoreRec
  | [] => []
  | s :: rest => insertByCreatedDesc s (sortByCreatedDesc rest)

/-- `StoreService.list_stores`: all rows of the tenant, newest first. -/
def listStores (db : List StoreRec) (tenantId : String) : List StoreRec :=
  sortByCreatedDesc (db.filter (fun s => decide (s.tenantId = tenantId)))

/-- `StoreService.delete_store`: look the row up via `get_store`, and
remove exactly that row when found (`False` when not). -/
def deleteStore (db : List StoreRec) (tenantId storeId : String) :
    Bool × List StoreRec :=
  match getStore db tenantId storeId with
  | none => (false, db)
  | some s => (true, db.erase s)

/-! ### Tenant key derivation and credential encryption (crypto.py,
store.py).  HKDF-SHA256 and AES-256-GCM are modeled symbolically: the
derived key is represented by its two inputs (HKDF is deterministic, and
distinct inputs are assumed to give distinct keys), and an encrypted
credential by its plaintext, key and nonce, with GCM tag verification
succeeding exactly when decryption uses the encryption key. -/

/-- A derived 32-byte tenant key, represented symbolically by the inputs of
`derive_tenant_key`. -/
structure DerivedKey where
  secret : String
  salt : String
  deriving DecidableEq, Repr

/-- `CryptoManager.derive_tenant_key(master_key, salt)` (symbolic HKDF). -/
def derive_tenant_key (masterKey : String) (salt : String) : DerivedKey :=
  ⟨masterKey, salt⟩

/-- The `(ciphertext, tag, nonce)` triple of
`CryptoManager.encrypt_api_key`, symbolically. -/
structure EncryptedCredential where
  plaintext : String
  key : DerivedKey
  nonce : Nat
  deriving DecidableEq, Repr

/-- `CryptoManager.encrypt_api_key(api_key, tenant_key)` with the fresh
random nonce made explicit. -/
def encrypt_api_key (apiKey : String) (tenantKey : DerivedKey)
    (nonce : Nat) : EncryptedCredential :=
  ⟨apiKey, tenantKey, nonce⟩

/-- `CryptoManager.decrypt_api_key`: GCM tag verification fails (raises)
unless the same key is used, in which case the plaintext round-trips. -/
def decrypt_api_key (blob : EncryptedCredential) (tenantKey : DerivedKey) :
    Option String :=
  if blob.key = tenantKey then some blob.plaintext else none

/-- The columns of the `tenants` table read by `register_store`. -/
structure TenantRec where
  id : String
  salt : String
  deriving DecidableEq, Repr

/-- The encryption key `StoreService.register_store` uses: a caller-supplied
pre-derived key if given, otherwise — as written at store.py line 69 —
`crypto.derive_tenant_key(api_key, str(tenant.salt))`, i.e. the key is
derived from the OrderDesk API key being registered. -/
def registerStoreKey (tenant : TenantRec) (apiKey : String)
    (tenantKey : Option DerivedKey) : DerivedKey :=
  match tenantKey with
  | some k => k
  | none => derive_tenant_key apiKey tenant.salt

/-- The encrypted credential `register_store` persists
(`crypto.encrypt_api_key(api_key, tenant_key)`). -/
def registerStoreCiphertext (tenant : TenantRec) (apiKey : String)
    (tenantKey : Option DerivedKey) (nonce : Nat) : EncryptedCredential :=
  encrypt_api_key apiKey (registerStoreKey tenant apiKey tenantKey) nonce

/-! ### Helper lemmas -/

theorem updateLoopAux_allConflict (fetch : Nat → Dict) (changes : Dict)
    (maxRetries : Nat) :
    ∀ remaining attempt, 1 ≤ remaining →
      updateLoopAux (fun n => Except.ok (fetch n))
        (fun _ _ => Except.error "CONFLICT_ERROR") changes maxRetries attempt
        remaining
        = (.conflictExhausted maxRetries, remaining, remaining) := by
  intro remaining
  induction remaining with
  | zero => intro _ h; omega
  | succ r ih =>
      intro attempt _
      rcases Nat.eq_zero_or_pos r with hr | hr
      · subst hr
        simp [updateLoopAux]
      · have hr' : r ≠ 0 := by omega
        have hrec := ih (attempt + 1) hr
        simp [updateLoopAux, hr', hrec]

theorem consume_true_iff (b : TokenBucket) (cost now : ℚ) :
    (b.consume cost now).1 = true ↔
      cost ≤ min b.capacity (b.tokens + (now - b.lastRefill) * b.rate) := by
  unfold TokenBucket.consume
  by_cases hc : cost ≤ min b.capacity (b.tokens + (now - b.lastRefill) * b.rate) <;>
    simp [hc]

theorem consume_false_iff (b : TokenBucket) (cost now : ℚ) :
    (b.consume cost now).1 = false ↔
      ¬ cost ≤ min b.capacity (b.tokens + (now - b.lastRefill) * b.rate) := by
  unfold TokenBucket.consume
  by_cases hc : cost ≤ min b.capacity (b.tokens + (now - b.lastRefill) * b.rate) <;>
    simp [hc]

theorem consume_snd (b : TokenBucket) (cost now : ℚ) :
    (b.consume cost now).2 =
      if cost ≤ min b.capacity (b.tokens + (now - b.lastRefill) * b.rate) then
        { b with
          tokens := min b.capacity (b.tokens + (now - b.lastRefill) * b.rate) - cost
          lastRefill := now }
      else
        { b with
          tokens := min b.capacity (b.tokens + (now - b.lastRefill) * b.rate)
          lastRefill := now } := by
  unfold TokenBucket.consume
  by_cases hc : cost ≤ min b.capacity (b.tokens + (now - b.lastRefill) * b.rate) <;>
    simp [hc]

theorem afterReads_spec : ∀ k : Nat, k ≤ 120 →
    afterReads k =
      { capacity := 120, rate := 1, tokens := 120 - (k : ℚ), lastRefill := 0 } := by
  intro k
  induction k with
  | zero =>
      intro _
      show newTenantBucket 60 0 = _
      unfold newTenantBucket
      norm_num
  | succ n ih =>
      intro hk
      have hn : n ≤ 120 := by omega
      have h0 : (0 : ℚ) ≤ (n : ℚ) := Nat.cast_nonneg n
      have h119 : (n : ℚ) ≤ 119 := by
        have hn' : n ≤ 119 := by omega
        exact_mod_cast hn'
      show ((afterReads n).consume (tokensNeeded .read) 0).2 = _
      rw [ih hn, consume_snd]
      dsimp only [tokensNeeded]
      have hmin : min (120 : ℚ) (120 - (n : ℚ) + ((0 : ℚ) - 0) * 1)
          = 120 - (n : ℚ) := by
        rw [show 120 - (n : ℚ) + ((0 : ℚ) - 0) * 1 = 120 - (n : ℚ) from by ring]
        exact min_eq_right (by linarith)
      rw [hmin, if_pos (by linarith)]
      rw [show 120 - (n : ℚ) - 1 = 120 - ((n + 1 : Nat) : ℚ) from by push_cast; ring]

theorem afterReads_121 :
    afterReads 121 =
      { capacity := 120, rate := 1, tokens := 0, lastRefill := 0 } := by
  show ((afterReads 120).consume (tokensNeeded .read) 0).2 = _
  rw [afterReads_spec 120 (le_refl _), consume_snd]
  dsimp only [tokensNeeded]
  have hmin : min (120 : ℚ) (120 - ((120 : Nat) : ℚ) + ((0 : ℚ) - 0) * 1)
      = 0 := by
    rw [show 120 - ((120 : Nat) : ℚ) + ((0 : ℚ) - 0) * 1 = 0 from by push_cast; ring]
    exact min_eq_right (by norm_num)
  rw [hmin, if_neg (by norm_num)]

theorem mem_insertByCreatedDesc (s a : StoreRec) (l : List StoreRec) :
    a ∈ insertByCreatedDesc s l ↔ a = s ∨ a ∈ l := by
  induction l with
  | nil => simp [insertByCreatedDesc]
  | cons t rest ih =>
      unfold insertByCreatedDesc
      by_cases hc : t.createdAt ≤ s.createdAt
      · simp [hc]
      · rw [if_neg hc]
        simp only [List.mem_cons, ih]
        tauto

theorem mem_sortByCreatedDesc (a : StoreRec) (l : List StoreRec) :
    a ∈ sortByCreatedDesc l ↔ a ∈ l := by
  induction l with
  | nil => simp [sortByCreatedDesc]
  | cons t rest ih =>
      simp [sortByCreatedDesc, mem_insertByCreatedDesc, ih]

/-! ### Claim theorems -/

/-- C1: `_request_with_retry` is documented (and specified) to retry on
rate-limited (429) and 5xx responses, but `_handle_error_response` always
raises after its backoff and the caller's `except OrderDeskError: raise`
re-raises without retrying: with every attempt answering HTTP 429 (resp.
500) and `max_retries = 3`, exactly one request is issued and the mapped
error surfaces immediately, exactly as for the non-retryable 404 — while
timeouts and network errors are retried to exhaustion (4 requests). -/
theorem requestWithRetry_no_retry_on_429_5xx :
    429 ∈ retryStatuses ∧ 500 ∈ retryStatuses ∧
    requestWithRetry (fun _ => .httpError 429) 3 = (.err "RATE_LIMITED", 1) ∧
    requestWithRetry (fun _ => .httpError 500) 3 = (.err "INTERNAL_ERROR", 1) ∧
    requestWithRetry (fun _ => .httpError 404) 3 = (.err "NOT_FOUND", 1) ∧
    requestWithRetry (fun _ => .timeout) 3 = (.err "TIMEOUT", 4) ∧
    requestWithRetry (fun _ => .netFailure) 3 = (.err "NETWORK_ERROR", 4) := by
  decide

/-- C2: the mutation loop retries only on the application error code
"CONFLICT_ERROR"; an upstream HTTP 409 is mapped by `error_code_map` to
"API_ERROR" (409 has no entry), so an upload failing with 409 aborts the
loop after one fetch and one upload instead of being retried with a fresh
fetch as the claim (and the method's docstring) state; not-found, auth and
timeout codes abort identically, and a "CONFLICT_ERROR" on the first
upload is the only thing that triggers a second fetch+upload cycle. -/
theorem updateOrderWithRetry_409_not_conflict :
    errorCodeMap 409 = "API_ERROR" ∧
    updateOrderWithRetry (fun _ => .ok [])
        (fun _ _ => .error (errorCodeMap 409)) [] 5
      = (.err "API_ERROR", 1, 1) ∧
    updateOrderWithRetry (fun _ => .ok []) (fun _ _ => .error "NOT_FOUND") [] 5
      = (.err "NOT_FOUND", 1, 1) ∧
    updateOrderWithRetry (fun _ => .ok []) (fun _ _ => .error "AUTH_ERROR") [] 5
      = (.err "AUTH_ERROR", 1, 1) ∧
    updateOrderWithRetry (fun _ => .ok []) (fun _ _ => .error "TIMEOUT") [] 5
      = (.err "TIMEOUT", 1, 1) ∧
    updateOrderWithRetry (fun _ => .ok [])
        (fun n d => if n = 0 then Except.error "CONFLICT_ERROR" else Except.ok d)
        [] 5
      = (.ok [], 2, 2) := by
  decide

/-- C3: when every upload attempt fails with a conflict-kind error
(`OrderDeskError` with code "CONFLICT_ERROR"), `update_order_with_retry`
performs exactly `max_retries` fetch+merge+upload cycles and then raises
`ConflictError` whose details carry `retries_attempted = max_retries`;
the default `max_retries` is 5. -/
theorem conflictRetryBound (fetch : Nat → Dict) (changes : Dict)
    (maxRetries : Nat) (h : 1 ≤ maxRetries) :
    updateOrderWithRetry (fun n => Except.ok (fetch n))
        (fun _ _ => Except.error "CONFLICT_ERROR") changes maxRetries
      = (.conflictExhausted maxRetries, maxRetries, maxRetries) ∧
    conflictDetails maxRetries = some maxRetries ∧
    defaultMaxRetries = 5 := by
  refine ⟨updateLoopAux_allConflict fetch changes maxRetries maxRetries 0 h,
    ?_, rfl⟩
  unfold conflictDetails
  rw [if_neg (by omega)]

/-- C3 witness: the always-conflicting upload double at the default
`max_retries = 5` does exactly 5 fetches and 5 uploads and reports 5
attempts. -/
theorem conflictRetryBound_witness :
    1 ≤ 5 ∧
    updateOrderWithRetry (fun _ => Except.ok [])
        (fun _ _ => Except.error "CONFLICT_ERROR") [] 5
      = (.conflictExhausted 5, 5, 5) := by
  refine ⟨by decide, ?_⟩
  exact (conflictRetryBound (fun _ => []) [] 5 (by decide)).1

/-- C4: `merge_order_changes` maps each key as the spec states — a null
change deletes the key, a non-null change replaces the value wholesale,
an omitted key keeps the fetched value — and on the spec's example
`{a:1, b:2, c:3}` merged with `{b: null, c: 5}` gives exactly
`{a:1, c:5}`. -/
theorem mergeOrderChanges_semantics (original changes : Dict)
    (h1 : nodupKeys original) (h2 : nodupKeys changes) :
    (∀ k, (lookupKey k changes = some JVal.null →
        lookupKey k (mergeOrderChanges original changes) = none) ∧
      (∀ v, lookupKey k changes = some v → v ≠ JVal.null →
        lookupKey k (mergeOrderChanges original changes) = some v) ∧
      (lookupKey k changes = none →
        lookupKey k (mergeOrderChanges original changes) = lookupKey k original)) ∧
    mergeOrderChanges [("a", JVal.num 1), ("b", JVal.num 2), ("c", JVal.num 3)]
      [("b", JVal.null), ("c", JVal.num 5)]
      = [("a", JVal.num 1), ("c", JVal.num 5)] := by
  refine ⟨fun k => ⟨?_, ?_, ?_⟩, by decide⟩
  · intro hc
    rw [lookupKey_mergeOrderChanges changes h2 original h1 k, hc]
    simp
  · intro v hc hv
    rw [lookupKey_mergeOrderChanges changes h2 original h1 k, hc]
    simp [hv]
  · intro hc
    rw [lookupKey_mergeOrderChanges changes h2 original h1 k, hc]

/-- C4 witness: the example dicts have distinct keys, and the null change
for "b" really deletes it from the merge. -/
theorem mergeOrderChanges_semantics_witness :
    nodupKeys [("a", JVal.num 1), ("b", JVal.num 2), ("c", JVal.num 3)] ∧
    nodupKeys [("b", JVal.null), ("c", JVal.num 5)] ∧
    lookupKey "b" (mergeOrderChanges
      [("a", JVal.num 1), ("b", JVal.num 2), ("c", JVal.num 3)]
      [("b", JVal.null), ("c", JVal.num 5)]) = none := by
  refine ⟨by decide, by decide, ?_⟩
  exact ((mergeOrderChanges_semantics _ _ (by decide) (by decide)).1 "b").1
    (by decide)

/-- C5: with no pre-derived tenant key supplied, `register_store` derives
the encryption key from the OrderDesk `api_key` being registered
(`crypto.derive_tenant_key(api_key, tenant.salt)`, store.py line 69), not
from the caller's master secret: the key differs from the
master-secret-derived key used at every decryption site, so the stored
credential fails GCM verification there, while the pre-derived-key path
round-trips. -/
theorem registerStore_wrong_kdf_input :
    registerStoreKey ⟨"t1", "salt1"⟩ "od-api-key" none
      = derive_tenant_key "od-api-key" "salt1" ∧
    derive_tenant_key "od-api-key" "salt1"
      ≠ derive_tenant_key "master-secret" "salt1" ∧
    decrypt_api_key
      (registerStoreCiphertext ⟨"t1", "salt1"⟩ "od-api-key" none 0)
      (derive_tenant_key "master-secret" "salt1") = none ∧
    decrypt_api_key
      (registerStoreCiphertext ⟨"t1", "salt1"⟩ "od-api-key"
        (some (derive_tenant_key "master-secret" "salt1")) 0)
      (derive_tenant_key "master-secret" "salt1") = some "od-api-key" := by
  decide

/-- C6: a bucket check refills `tokens = min(capacity, tokens +
elapsed * rate)` and succeeds exactly when the cost (1 for a read, 2 for a
write) fits; the tenant bucket for base rate 60 rpm has capacity 120 and
refill 1 token/sec, starts full, accepts 120 consecutive cost-1 reads at
one instant, rejects the 121st, and accepts a cost-`n` consumption again
after waiting at least `n` seconds (1 second per token needed). -/
theorem tokenBucket_burst_then_throttle :
    (∀ (b : TokenBucket) (now : ℚ),
      checkTenantLimit b .read now = b.consume 1 now ∧
      checkTenantLimit b .write now = b.consume 2 now) ∧
    (∀ (b : TokenBucket) (cost now : ℚ),
      ((b.consume cost now).1 = true ↔
        cost ≤ min b.capacity (b.tokens + (now - b.lastRefill) * b.rate))) ∧
    (newTenantBucket 60 0).capacity = 120 ∧
    (newTenantBucket 60 0).rate = 1 ∧
    (newTenantBucket 60 0).tokens = 120 ∧
    (∀ k : Nat, k < 120 → (checkTenantLimit (afterReads k) .read 0).1 = true) ∧
    (checkTenantLimit (afterReads 120) .read 0).1 = false ∧
    (∀ n w : ℚ, 1 ≤ n → n ≤ 120 → n ≤ w →
      ((afterReads 121).consume n w).1 = true) := by
  refine ⟨fun b now => ⟨rfl, rfl⟩, fun b cost now => consume_true_iff b cost now,
    by norm_num [newTenantBucket], by norm_num [newTenantBucket],
    by norm_num [newTenantBucket], ?_, ?_, ?_⟩
  · intro k hk
    have h119 : (k : ℚ) ≤ 119 := by
      have hk' : k ≤ 119 := by omega
      exact_mod_cast hk'
    show ((afterReads k).consume 1 0).1 = true
    rw [afterReads_spec k (by omega), consume_true_iff]
    show (1 : ℚ) ≤ min (120 : ℚ) (120 - (k : ℚ) + ((0 : ℚ) - 0) * 1)
    rw [show 120 - (k : ℚ) + ((0 : ℚ) - 0) * 1 = 120 - (k : ℚ) from by ring]
    have h0 : (0 : ℚ) ≤ (k : ℚ) := Nat.cast_nonneg k
    rw [min_eq_right (by linarith)]
    linarith
  · show ((afterReads 120).consume 1 0).1 = false
    rw [afterReads_spec 120 (le_refl _), consume_false_iff]
    show ¬ (1 : ℚ) ≤ min (120 : ℚ) (120 - ((120 : Nat) : ℚ) + ((0 : ℚ) - 0) * 1)
    rw [show 120 - ((120 : Nat) : ℚ) + ((0 : ℚ) - 0) * 1 = 0 from by
      push_cast; ring]
    norm_num
  · intro n w h1 h120 hw
    rw [afterReads_121, consume_true_iff]
    show n ≤ min (120 : ℚ) ((0 : ℚ) + (w - 0) * 1)
    rw [show (0 : ℚ) + (w - 0) * 1 = w from by ring]
    exact le_min h120 hw

/-- C6 witness: the first read at time 0 is accepted, and after exhaustion
a cost-1 read is accepted again once 1 second has passed. -/
theorem tokenBucket_burst_then_throttle_witness :
    (checkTenantLimit (afterReads 0) .read 0).1 = true ∧
    ((afterReads 121).consume 1 1).1 = true := by
  refine ⟨?_, ?_⟩
  · exact tokenBucket_burst_then_throttle.2.2.2.2.2.1 0 (by norm_num)
  · exact tokenBucket_burst_then_throttle.2.2.2.2.2.2.2 1 1 (by norm_num)
      (by norm_num) (by norm_num)

/-- C7 counterexample: the per-source-IP login bucket is created by
`_get_ip_bucket` with capacity equal to its base rate-per-minute (default
5), not twice it, refuting the claim that every bucket family gets the
2x burst ceiling. -/
theorem ipBucket_capacity_not_double :
    (newIpBucket webuiRateLimitLogin 0).capacity = 5 ∧
    (newIpBucket webuiRateLimitLogin 0).capacity
      ≠ 2 * ((webuiRateLimitLogin : ℚ)) := by
  constructor
  · norm_num [newIpBucket, webuiRateLimitLogin]
  · norm_num [newIpBucket, webuiRateLimitLogin]

/-- C7 amended: only the per-tenant API bucket is created with capacity
`2 x` its base rate-per-minute; the per-IP login, signup and console
buckets are created with capacity equal to `1 x` the base rate-per-minute.
Every bucket starts full at its own capacity. -/
theorem bucket_creation_amended (rpm : Nat) (now : ℚ) :
    (newTenantBucket rpm now).capacity = 2 * (rpm : ℚ) ∧
    (newTenantBucket rpm now).tokens = (newTenantBucket rpm now).capacity ∧
    (newTenantBucket rpm now).rate = (rpm : ℚ) / 60 ∧
    (newIpBucket rpm now).capacity = (rpm : ℚ) ∧
    (newIpBucket rpm now).tokens = (newIpBucket rpm now).capacity ∧
    (newIpBucket rpm now).rate = (rpm : ℚ) / 60 := by
  exact ⟨mul_comm (rpm : ℚ) 2, rfl, rfl, rfl, rfl, rfl⟩

/-- C8 counterexample: the delays before the retries following conflicted
attempts 0, 1, 2 are 0.5, 1 and 2 seconds — consecutive increments 0.5
and 1 — so the backoff is not a fixed delay scaled linearly by the
attempt number. -/
theorem backoffDelay_not_linear :
    backoffDelay 0 = 1 / 2 ∧ backoffDelay 1 = 1 ∧ backoffDelay 2 = 2 ∧
    backoffDelay 2 - backoffDelay 1 ≠ backoffDelay 1 - backoffDelay 0 := by
  refine ⟨by norm_num [backoffDelay], by norm_num [backoffDelay],
    by norm_num [backoffDelay], by norm_num [backoffDelay]⟩

/-- C8 amended: the delay between a conflicted upload attempt and the next
fetch is deterministic (computed before sleeping, no jitter) but
exponential in the attempt number: `0.5 * 2 ^ attempt` seconds, doubling
with each further attempt. -/
theorem backoffDelay_exponential (attempt : Nat) :
    backoffDelay attempt = (1 / 2) * 2 ^ attempt ∧
    backoffDelay (attempt + 1) = 2 * backoffDelay attempt := by
  refine ⟨rfl, ?_⟩
  unfold backoffDelay
  ring

/-- C9: every `StoreService` lookup filters by the tenant id — any row
returned by `get_store`, `get_store_by_name` or `resolve_store` belongs to
the requesting tenant, `list_stores` lists only the tenant's rows, and
`delete_store` leaves every other tenant's rows untouched — so no input,
including colliding friendly names across tenants, can reach another
tenant's store. -/
theorem storeService_tenant_isolation (db : List StoreRec)
    (t identifier storeId : String) :
    (∀ s, getStore db t storeId = some s → s.tenantId = t) ∧
    (∀ s, getStoreByName db t identifier = some s → s.tenantId = t) ∧
    (∀ s, resolveStore db t identifier = some s → s.tenantId = t) ∧
    (∀ s, s ∈ listStores db t → s.tenantId = t) ∧
    (∀ s, s.tenantId ≠ t → (s ∈ (deleteStore db t storeId).2 ↔ s ∈ db)) := by
  have hget : ∀ s, getStore db t storeId = some s → s.tenantId = t := by
    intro s hs
    unfold getStore at hs
    have hp := List.find?_some hs
    simp only [decide_eq_true_eq] at hp
    exact hp.1
  have hgetId : ∀ s, getStore db t identifier = some s → s.tenantId = t := by
    intro s hs
    unfold getStore at hs
    have hp := List.find?_some hs
    simp only [decide_eq_true_eq] at hp
    exact hp.1
  have hname : ∀ s, getStoreByName db t identifier = some s →
      s.tenantId = t := by
    intro s hs
    unfold getStoreByName at hs
    have hp := List.find?_some hs
    simp only [decide_eq_true_eq] at hp
    exact hp.1
  refine ⟨hget, hname, ?_, ?_, ?_⟩
  · intro s hs
    unfold resolveStore at hs
    rcases hfind : getStore db t identifier with _ | s0 <;> rw [hfind] at hs
    · exact hname s hs
    · have hss : s0 = s := by simpa using hs
      subst hss
      exact hgetId s0 hfind
  · intro s hs
    unfold listStores at hs
    rw [mem_sortByCreatedDesc] at hs
    have hp := List.of_mem_filter hs
    simp only [decide_eq_true_eq] at hp
    exact hp
  · intro s hst
    unfold deleteStore
    rcases hfind : getStore db t storeId with _ | s0
    · exact Iff.rfl
    · have hs0 : s0.tenantId = t := hget s0 hfind
      have hne : s ≠ s0 := fun he => hst (he ▸ hs0)
      exact List.mem_erase_of_ne hne

/-- C9 witness: tenants "A" and "B" both own a store named "shop";
resolving "shop" for "A" yields A's row, whose tenant id the theorem pins
to "A" (so it is never B's row). -/
theorem storeService_tenant_isolation_witness :
    resolveStore [⟨"A", "s1", "shop", 0⟩, ⟨"B", "s2", "shop", 1⟩] "A" "shop"
      = some ⟨"A", "s1", "shop", 0⟩ ∧
    (⟨"A", "s1", "shop", 0⟩ : StoreRec).tenantId = "A" ∧
    ("B" : String) ≠ "A" := by
  have hres : resolveStore [⟨"A", "s1", "shop", 0⟩, ⟨"B", "s2", "shop", 1⟩]
      "A" "shop" = some ⟨"A", "s1", "shop", 0⟩ := by decide
  refine ⟨hres, ?_, by decide⟩
  exact (storeService_tenant_isolation
    [⟨"A", "s1", "shop", 0⟩, ⟨"B", "s2", "shop", 1⟩] "A" "shop" "shop").2.2.1
    _ hres

/-- C10: run as a heap program, `merge_order_changes` mutates only the
fresh copy made by `merged = original.copy()`: afterwards the dict at the
original's address is exactly what it was before the call, the returned
object is a different address, and it holds the functional merge of the
original with the change-set. -/
theorem mergeOrderChangesProg_no_mutation (h : Heap) (next orig : Nat)
    (changes : Dict) (hfresh : orig ≠ next) :
    (mergeOrderChangesProg h next orig changes).1 orig = h orig ∧
    (mergeOrderChangesProg h next orig changes).2 ≠ orig ∧
    (mergeOrderChangesProg h next orig changes).1
        (mergeOrderChangesProg h next orig changes).2
      = mergeOrderChanges (h orig) changes := by
  rcases foldl_progStep_spec next changes (heapUpdate h next (h orig)) with
    ⟨hAddr, hOther⟩
  refine ⟨?_, fun hc => hfresh hc.symm, ?_⟩
  · show (changes.foldl (progStep next) (heapUpdate h next (h orig))) orig
      = h orig
    rw [hOther orig hfresh]
    exact heapUpdate_ne h next orig (h orig) hfresh
  · show (changes.foldl (progStep next) (heapUpdate h next (h orig))) next
      = mergeOrderChanges (h orig) changes
    rw [hAddr, heapUpdate_self]
    rfl

/-- C10 witness: a one-dict heap; after merging a null change at a fresh
address, the original address still holds the untouched dict and the
result address holds the merge. -/
theorem mergeOrderChangesProg_no_mutation_witness :
    (0 : Nat) ≠ 1 ∧
    (mergeOrderChangesProg (fun _ => [("a", JVal.num 1)]) 1 0
      [("a", JVal.null)]).1 0 = [("a", JVal.num 1)] ∧
    (mergeOrderChangesProg (fun _ => [("a", JVal.num 1)]) 1 0
        [("a", JVal.null)]).1
      (mergeOrderChangesProg (fun _ => [("a", JVal.num 1)]) 1 0
        [("a", JVal.null)]).2
      = mergeOrderChanges [("a", JVal.num 1)] [("a", JVal.null)] := by
  have hm := mergeOrderChangesProg_no_mutation (fun _ => [("a", JVal.num 1)])
    1 0 [("a", JVal.null)] (by decide)
  exact ⟨by decide, hm.1, hm.2.2⟩
